import Mathlib

/-!
Verification of the fuzzy application-identity resolver
(`AppNameNormalizer`: normalization, multi-tier similarity scoring,
best/all-match resolution) and of the periodic focus-monitoring machinery
(`FocusMonitoringService`, the `focusMonitor` store slice) of the
cherry-studio focus-monitor feature.

Modelling conventions:
* JavaScript strings are lists of characters (`JStr`); `String.prototype`
  operations are embedded char-wise.  `toLowerCase` is embedded on the
  ASCII range (non-ASCII letters are left unchanged; every such character
  is subsequently replaced by a space by the `[^\w\s-]` rule, exactly as
  the uppercase originals would be, so the claims below are insensitive
  to this restriction).
* JavaScript numbers are exact rationals (`ℚ`); the scores produced by
  the scorer are small dyadic-style constants and quotients of small
  integers, so exact arithmetic mirrors the float computation.
* The asynchronous scheduler is embedded as explicit state passing: each
  externally observable event (`stopMonitoring`, the completion of a
  `performCheck` whose awaited evaluation resolved or threw) is a pure
  function on a `SchedulerState`.
-/

namespace FocusSpec

/-- JavaScript strings, modelled as lists of characters. -/
abbrev JStr := List Char

/-- Turn a Lean string literal into the character-list model. -/
def str (s : String) : JStr := s.data

/-! ## NameNormalizer (`AppNameNormalizer.normalizeBasic`) -/

/-- Embeds `String.prototype.toLowerCase` on the ASCII range:
`A`–`Z` map to `a`–`z`, everything else is unchanged. -/
def jsToLower (c : Char) : Char :=
  if 65 ≤ c.toNat ∧ c.toNat ≤ 90 then Char.ofNat (c.toNat + 32) else c

/-- The character class of the regex `\w`: ASCII letters, digits and
underscore. -/
def isWordChar (c : Char) : Bool := c.isAlpha || c.isDigit || c == '_'

/-- The character class of the regex `\s` (ASCII part): space, tab,
line feed, carriage return, vertical tab, form feed. -/
def isSpaceChar (c : Char) : Bool :=
  c == ' ' || c == '\t' || c == '\n' || c == '\r' || c == '\x0b' || c == '\x0c'

/-- Embeds `.replace(/\.(exe|app|dmg|msi)$/i, '')`.  The input is already
lowercased when this step runs, so matching the lowercase suffixes is
exhaustive. -/
def stripExtension (s : JStr) : JStr :=
  if str ".exe" <:+ s ∨ str ".app" <:+ s ∨ str ".dmg" <:+ s ∨ str ".msi" <:+ s then
    s.take (s.length - 4)
  else s

/-- Embeds `.replace(/[^\w\s-]/g, ' ')`: every character that is not a
word character, a whitespace character or a hyphen becomes a space. -/
def replaceSpecial (s : JStr) : JStr :=
  s.map fun c => if isWordChar c || isSpaceChar c || c == '-' then c else ' '

/-- Worker for `collapseWs`.  The flag records whether the previous input
character was whitespace, so that each maximal whitespace run emits
exactly one space. -/
def collapseWsAux : Bool → JStr → JStr
  | _, [] => []
  | prevSpace, c :: rest =>
    if isSpaceChar c then
      if prevSpace then collapseWsAux true rest
      else ' ' :: collapseWsAux true rest
    else c :: collapseWsAux false rest

/-- Embeds `.replace(/\s+/g, ' ')`: each maximal run of whitespace
characters becomes a single space. -/
def collapseWs (s : JStr) : JStr := collapseWsAux false s

/-- Embeds `.trim()`: drop whitespace from both ends. -/
def trimWs (s : JStr) : JStr :=
  ((s.dropWhile isSpaceChar).reverse.dropWhile isSpaceChar).reverse

/-- `AppNameNormalizer.normalizeBasic`: guard on the falsy (empty) string,
then lowercase, strip a trailing executable extension, replace special
characters by spaces, collapse whitespace runs, trim. -/
def normalizeBasic (name : JStr) : JStr :=
  if name = [] then []
  else trimWs (collapseWs (replaceSpecial (stripExtension (name.map jsToLower))))

/-! ## AliasTable (`AppNameNormalizer.APP_ALIASES`) -/

/-- The static alias map, as the ordered association list backing the
source's `Map` literal. -/
def APP_ALIASES : List (JStr × JStr) := [
  (str "chrome", str "google chrome"),
  (str "firefox", str "mozilla firefox"),
  (str "safari", str "safari"),
  (str "edge", str "microsoft edge"),
  (str "brave", str "brave browser"),
  (str "vscode", str "visual studio code"),
  (str "code", str "visual studio code"),
  (str "sublime", str "sublime text"),
  (str "atom", str "atom"),
  (str "webstorm", str "webstorm"),
  (str "phpstorm", str "phpstorm"),
  (str "pycharm", str "pycharm"),
  (str "slack", str "slack"),
  (str "discord", str "discord"),
  (str "zoom", str "zoom"),
  (str "teams", str "microsoft teams"),
  (str "skype", str "skype"),
  (str "terminal", str "terminal"),
  (str "cmd", str "command prompt"),
  (str "powershell", str "windows powershell"),
  (str "git", str "git"),
  (str "docker", str "docker"),
  (str "spotify", str "spotify"),
  (str "vlc", str "vlc media player"),
  (str "itunes", str "itunes"),
  (str "youtube", str "youtube"),
  (str "word", str "microsoft word"),
  (str "excel", str "microsoft excel"),
  (str "powerpoint", str "microsoft powerpoint"),
  (str "outlook", str "microsoft outlook"),
  (str "notion", str "notion"),
  (str "obsidian", str "obsidian"),
  (str "twitter", str "twitter"),
  (str "facebook", str "facebook"),
  (str "instagram", str "instagram"),
  (str "tiktok", str "tiktok"),
  (str "steam", str "steam"),
  (str "origin", str "origin"),
  (str "epic", str "epic games launcher")]

/-- `AppNameNormalizer.getCanonicalName`: normalize, then look the result
up in the alias table, falling back to the normalized form. -/
def getCanonicalName (name : JStr) : JStr :=
  let normalized := normalizeBasic name
  (APP_ALIASES.lookup normalized).getD normalized

/-! ## SimilarityScorer (`AppNameNormalizer.calculateMatchScore`) -/

/-- Classic Levenshtein edit distance with unit-cost insertion, deletion
and substitution.  The source fills the standard DP matrix whose
recurrence this function is (`matrix[i][j]` is the distance between the
length-`i` and length-`j` prefixes); here the recurrence is taken
directly as the definition. -/
def levenshteinDistance : JStr → JStr → Nat
  | [], str2 => str2.length
  | c1 :: s1, [] => (c1 :: s1).length
  | c1 :: s1, c2 :: s2 =>
    let cost := if c1 = c2 then 0 else 1
    min (min (levenshteinDistance s1 (c2 :: s2) + 1)
             (levenshteinDistance (c1 :: s1) s2 + 1))
        (levenshteinDistance s1 s2 + cost)
termination_by s1 s2 => s1.length + s2.length
decreasing_by all_goals (simp only [List.length_cons]; omega)

/-- One probe of the Jaro match-finding inner loop: the first index
`j ∈ [start, stop)` such that `str2Matches[j]` is unset and
`str2[j] = c` (the source's `continue` condition, negated). -/
def findUnmatchedIdx (c : Char) (s2 : JStr) (f2 : List Bool) (start stop : Nat) :
    Option Nat :=
  (List.range' start (stop - start)).find? fun j => !f2.getD j true && (s2.getD j ' ' == c)

/-- The Jaro match-finding loop over `str1`.  `i` is the index of the
current character of `str1`; `f2` is the `str2Matches` array.  Returns
the `str1Matches` flags (one per `str1` position, in order — the source
sets `str1Matches[i]` exactly at iteration `i`) together with the final
`str2Matches`. -/
def jaroGo (s2 : JStr) (window : Nat) : JStr → Nat → List Bool → List Bool × List Bool
  | [], _, f2 => ([], f2)
  | c :: rest, i, f2 =>
    let start := i - window
    let stop := min (i + window + 1) s2.length
    match findUnmatchedIdx c s2 f2 start stop with
    | some j =>
      let r := jaroGo s2 window rest (i + 1) (f2.set j true)
      (true :: r.1, r.2)
    | none =>
      let r := jaroGo s2 window rest (i + 1) f2
      (false :: r.1, r.2)

/-- Match-finding phase of the Jaro similarity, started with all of
`str2Matches` unset. -/
def jaroFindMatches (s1 s2 : JStr) (window : Nat) : List Bool × List Bool :=
  jaroGo s2 window s1 0 (List.replicate s2.length false)

/-- The characters of `s` at the flagged positions, in order.  This is
the sequence the source's transposition loop enumerates with its
`while (!str2Matches[k]) k++` cursor. -/
def matchedChars (s : JStr) (flags : List Bool) : JStr :=
  ((s.zip flags).filter fun p => p.2).map fun p => p.1

/-- Length of the common prefix of `s1` and `s2`, capped at `cap`; the
source runs `i` up to `min(len1, len2, 4)` and breaks at the first
mismatch. -/
def commonPrefixLen : JStr → JStr → Nat → Nat
  | _, _, 0 => 0
  | [], _, _ + 1 => 0
  | _ :: _, [], _ + 1 => 0
  | a :: s1, b :: s2, n + 1 => if a = b then commonPrefixLen s1 s2 n + 1 else 0

/-- Main branch of the Jaro–Winkler computation, reached once both
strings are non-empty and the match window is non-negative: find the
matches, bail out with `0` when there are none, otherwise combine the
Jaro average with the Winkler prefix bonus. -/
def jaroWinklerMain (str1 str2 : JStr) (matchWindow : Nat) : ℚ :=
  let fs := jaroFindMatches str1 str2 matchWindow
  let matchCount := fs.1.countP id
  if matchCount = 0 then 0
  else
    let mc1 := matchedChars str1 fs.1
    let mc2 := matchedChars str2 fs.2
    let transpositions := ((mc1.zip mc2).filter fun p => p.1 != p.2).length
    let m : ℚ := matchCount
    let jaro :=
      (m / str1.length + m / str2.length + (m - (transpositions : ℚ) / 2) / m) / 3
    let prefixLen := commonPrefixLen str1 str2 (min (min str1.length str2.length) 4)
    jaro + mkRat 1 10 * prefixLen * (1 - jaro)

/-- `AppNameNormalizer.jaroWinklerSimilarity`: standard Jaro similarity
(match window `⌊max(len1, len2)/2⌋ − 1`, matches without reuse,
transpositions among matched characters) plus the Winkler prefix bonus
`0.1 · commonPrefixLength(≤ 4) · (1 − jaro)`. -/
def jaroWinklerSimilarity (str1 str2 : JStr) : ℚ :=
  let len1 := str1.length
  let len2 := str2.length
  if len1 = 0 ∧ len2 = 0 then 1
  else if len1 = 0 ∨ len2 = 0 then 0
  else
    let matchWindowI : ℤ := (max len1 len2 : ℤ) / 2 - 1
    if matchWindowI < 0 then 0
    else jaroWinklerMain str1 str2 matchWindowI.toNat

/-- Tokens of a name: `split(' ')` followed by dropping empty pieces
(the source's `.filter((w) => w.length > 0)`). -/
def wordsOf (s : JStr) : List JStr :=
  (s.splitOn ' ').filter fun w => 0 < w.length

/-- `AppNameNormalizer.calculateMatchScore`: the tiered scorer.  Decimal
literals of the source are written as exact rationals
(`0.95 = mkRat 19 20`, `0.9 = mkRat 9 10`, `0.85 = mkRat 17 20`,
`0.8 = mkRat 4 5`, `0.75 = mkRat 3 4`, `0.6 = mkRat 3 5`,
`0.5 = mkRat 1 2`, `0.15 = mkRat 3 20`, `0.4 = mkRat 2 5`). -/
def calculateMatchScore (target candidate : JStr) : ℚ :=
  if target = [] ∨ candidate = [] then 0
  else
    let normalizedTarget := normalizeBasic target
    let normalizedCandidate := normalizeBasic candidate
    let canonicalTarget := getCanonicalName normalizedTarget
    let canonicalCandidate := getCanonicalName normalizedCandidate
    if canonicalTarget = canonicalCandidate then 1
    else if normalizedTarget = normalizedCandidate then mkRat 19 20
    else if canonicalTarget <:+: canonicalCandidate then mkRat 9 10
    else if canonicalCandidate <:+: canonicalTarget then mkRat 17 20
    else if normalizedTarget <:+: normalizedCandidate then mkRat 4 5
    else if normalizedCandidate <:+: normalizedTarget then mkRat 3 4
    else
      let targetWords := wordsOf canonicalTarget
      let candidateWords := wordsOf canonicalCandidate
      let wordMatches :=
        (targetWords.filter fun tw =>
          candidateWords.any fun cw => decide (tw <:+: cw) || decide (cw <:+: tw)).length
      let wordScore : ℚ :=
        (wordMatches : ℚ) / ((max targetWords.length candidateWords.length : ℕ) : ℚ)
      -- The source computes `wordScore` only under the non-emptiness
      -- guard and falls through to the fuzzy tier otherwise; since the
      -- computation is pure, the guarded early return flattens to one
      -- conditional.
      if 0 < targetWords.length ∧ 0 < candidateWords.length ∧ wordScore > mkRat 1 2 then
        mkRat 3 5 + wordScore * mkRat 3 20
      else
        let maxLength := max canonicalTarget.length canonicalCandidate.length
        let levenshteinDist := levenshteinDistance canonicalTarget canonicalCandidate
        let levenshteinSim : ℚ := 1 - (levenshteinDist : ℚ) / (maxLength : ℚ)
        let jaroWinklerSim := jaroWinklerSimilarity canonicalTarget canonicalCandidate
        let fuzzyScore := levenshteinSim * mkRat 2 5 + jaroWinklerSim * mkRat 3 5
        if fuzzyScore > mkRat 3 5 then fuzzyScore else 0

/-! ## MatchResolver (`findBestMatch`, `findAllMatches`) -/

/-- The source's `AppMatchResult` record; its `match` field is called
`matched` here because `match` is reserved in Lean. -/
structure AppMatchResult where
  matched : Option JStr
  score : ℚ
  normalizedTarget : JStr
  normalizedCandidate : JStr
deriving DecidableEq

/-- The loop body of `findBestMatch`: replace the accumulated
`(bestMatch, bestScore, bestNormalizedCandidate)` when the candidate's
score strictly beats the accumulated score and clears the `0.6` minimum
threshold. -/
def bestStep (target : JStr) (acc : Option JStr × ℚ × JStr) (candidate : JStr) :
    Option JStr × ℚ × JStr :=
  let score := calculateMatchScore target candidate
  if score > acc.2.1 ∧ score > mkRat 3 5 then
    (some candidate, score, normalizeBasic candidate)
  else acc

/-- `AppNameNormalizer.findBestMatch`: scan the candidates in order,
keeping the strictly best score that also clears the `0.6` minimum
threshold. -/
def findBestMatch (target : JStr) (candidates : List JStr) : AppMatchResult :=
  if target = [] ∨ candidates = [] then
    { matched := none, score := 0, normalizedTarget := normalizeBasic target
      normalizedCandidate := [] }
  else
    let r := candidates.foldl (bestStep target) ((none : Option JStr), (0 : ℚ), ([] : JStr))
    { matched := r.1, score := r.2.1, normalizedTarget := normalizeBasic target
      normalizedCandidate := r.2.2 }

/-- One element of the list returned by `findAllMatches`. -/
structure AppScoreEntry where
  app : JStr
  score : ℚ
  normalizedName : JStr
deriving DecidableEq

/-- The comparator of the source's `matches.sort((a, b) => b.score - a.score)`:
`a` may stay before `b` iff `b.score ≤ a.score`. -/
def byScoreDesc (a b : AppScoreEntry) : Prop := b.score ≤ a.score

instance : DecidableRel byScoreDesc := fun a b => inferInstanceAs (Decidable (b.score ≤ a.score))

instance : IsTotal AppScoreEntry byScoreDesc := ⟨fun a b => le_total b.score a.score⟩

instance : IsTrans AppScoreEntry byScoreDesc := ⟨fun _ _ _ h1 h2 => le_trans h2 h1⟩

/-- The pre-sort stage of `findAllMatches`: the guard on empty inputs
and the threshold filter, keeping candidates in input order. -/
def findAllMatchesUnsorted (target : JStr) (candidates : List JStr) (threshold : ℚ) :
    List AppScoreEntry :=
  if target = [] ∨ candidates = [] then []
  else
    candidates.filterMap fun candidate =>
      let score := calculateMatchScore target candidate
      if score ≥ threshold then
        some { app := candidate, score := score, normalizedName := normalizeBasic candidate }
      else none

/-- `AppNameNormalizer.findAllMatches`: keep every candidate whose score
reaches the threshold, then sort by score, descending.  JavaScript's
`Array.prototype.sort` is required by the language spec to be stable;
`List.insertionSort` with the comparator above is such a stable
descending sort (sorting the empty guard result is the identity, so the
guard may equivalently sit inside the pre-sort stage). -/
def findAllMatches (target : JStr) (candidates : List JStr) (threshold : ℚ) :
    List AppScoreEntry :=
  List.insertionSort byScoreDesc (findAllMatchesUnsorted target candidates threshold)

/-! ## FocusEvaluator (`FocusMonitoringService.analyzeCurrentFocus`) -/

/-- `(score * 100).toFixed(0)`, the percentage shown inside reasons.
JavaScript `toFixed(0)` rounds to the nearest integer with ties away
from zero; scores are non-negative, so `round` (ties up) agrees. -/
def formatPct (score : ℚ) : JStr := str (toString (round (score * 100)))

/-- The `{isFocused, reason}` record returned by `checkBlockedApps` and
`checkAllowedApps`. -/
structure CheckVerdict where
  isFocused : Bool
  reason : JStr
deriving DecidableEq

/-- `FocusMonitoringService.checkBlockedApps`.  A `null` match would be
interpolated as the text `"null"` by the template literal; under the
`score > 0.6` guard the match is in fact always present. -/
def checkBlockedApps (currentApp : JStr) (blockedApps : List JStr) : CheckVerdict :=
  let matchResult := findBestMatch currentApp blockedApps
  if matchResult.score > mkRat 3 5 then
    { isFocused := false
      reason := str "使用了被屏蔽的应用: " ++ matchResult.matched.getD (str "null")
        ++ str " (匹配度: " ++ formatPct matchResult.score ++ str "%)" }
  else
    { isFocused := true, reason := str "应用不在屏蔽列表中" }

/-- `FocusMonitoringService.checkAllowedApps`. -/
def checkAllowedApps (currentApp : JStr) (allowedApps : List JStr) : CheckVerdict :=
  let matchResult := findBestMatch currentApp allowedApps
  if matchResult.score > mkRat 3 5 then
    { isFocused := true
      reason := str "使用允许的应用: " ++ matchResult.matched.getD (str "null")
        ++ str " (匹配度: " ++ formatPct matchResult.score ++ str "%)" }
  else
    { isFocused := false, reason := str "应用不在允许列表中: " ++ currentApp }

/-- The `MonitoringResult` record assembled by `analyzeCurrentFocus` and
appended by `performCheck`; the store's `FocusLog` has the same shape.
`screenshot` and `ocrText` are never populated on this code path. -/
structure MonitoringResult where
  isFocused : Bool
  reason : JStr
  activeApp : Option JStr
  timestamp : ℤ
  screenshot : Option JStr
  ocrText : Option JStr
deriving DecidableEq

/-- `FocusMonitoringService.analyzeCurrentFocus`, its effects made
explicit: `timestamp` is the `Date.now()` of the tick, `activeApp` the
provider's answer (`none` when no active app was detected), and the two
lists are the store snapshot read at tick time.  The blocked list is
consulted first; the allowed list is only consulted when the blocked
check did not fire. -/
def analyzeCurrentFocus (timestamp : ℤ) (activeApp : Option JStr)
    (allowedApps blockedApps : List JStr) : MonitoringResult :=
  match activeApp with
  | none =>
    { isFocused := true, reason := str "未检测到活动应用", activeApp := none
      timestamp := timestamp, screenshot := none, ocrText := none }
  | some name =>
    let blockedCheck := checkBlockedApps name blockedApps
    if 0 < blockedApps.length ∧ blockedCheck.isFocused = false then
      { isFocused := false, reason := blockedCheck.reason, activeApp := some name
        timestamp := timestamp, screenshot := none, ocrText := none }
    else
      let allowedCheck := checkAllowedApps name allowedApps
      if 0 < allowedApps.length ∧ allowedCheck.isFocused = false then
        { isFocused := false, reason := allowedCheck.reason, activeApp := some name
          timestamp := timestamp, screenshot := none, ocrText := none }
      else
        { isFocused := true, reason := str "使用允许的应用", activeApp := some name
          timestamp := timestamp, screenshot := none, ocrText := none }

/-! ## ResultLog and Statistics (`store/focusMonitor.ts`) -/

/-- The `addLog` reducer: push the entry, then keep only the last 100
entries (`state.logs = state.logs.slice(-100)` when the length exceeds
100). -/
def addLog (logs : List MonitoringResult) (entry : MonitoringResult) :
    List MonitoringResult :=
  let pushed := logs ++ [entry]
  if 100 < pushed.length then pushed.drop (pushed.length - 100) else pushed

/-- The `statistics` slice of the store. -/
structure FocusStatistics where
  totalChecks : Nat
  focusedChecks : Nat
  distractedChecks : Nat
deriving DecidableEq

/-! ## MonitorScheduler (`FocusMonitoringService` lifecycle) -/

/-- The mutable state owned by `FocusMonitoringService` together with
the store fields it drives.  `timerArmed` models
`monitoringInterval != null` (an armed `setTimeout`); `checkInFlight`
models a `performCheck` invocation that has passed its `isRunning` guard
and is awaiting `analyzeCurrentFocus`. -/
structure SchedulerState where
  isRunning : Bool
  timerArmed : Bool
  checkInFlight : Bool
  logs : List MonitoringResult
  statistics : FocusStatistics
  lastCheckTime : Option ℤ
deriving DecidableEq

/-- Outcome of the awaited evaluation inside `performCheck`: either the
`MonitoringResult` produced by `analyzeCurrentFocus`, or the error it
threw (its message, with the `Date.now()` observed in the catch block). -/
inductive CheckOutcome
  | ok (result : MonitoringResult)
  | err (message : JStr) (now : ℤ)
deriving DecidableEq

/-- `FocusMonitoringService.stopMonitoring`: a no-op when not running;
otherwise clear the armed timer (`clearTimeout`) and mark the service
stopped (`isRunning = false`, `setIsActive(false)`).  Nothing here
touches an in-flight check, the logs or the statistics. -/
def stopMonitoring (s : SchedulerState) : SchedulerState :=
  if s.isRunning = false then s
  else { s with timerArmed := false, isRunning := false }

/-- The `setTimeout` of `scheduleNextCheck` fires: the one-shot timer is
consumed and `performCheck` begins.  Its first statement returns
immediately when `isRunning` is false; otherwise the check is now in
flight. -/
def timerFires (s : SchedulerState) : SchedulerState :=
  { s with timerArmed := false, checkInFlight := s.isRunning }

/-- The continuation of `performCheck` after the awaited
`analyzeCurrentFocus` settles.  On success: record the check time,
append the result to the log and bump the counters (`totalChecks`, then
`focusedChecks` or `distractedChecks`).  On error (the catch block):
append a log entry with `isFocused: false` and reason
`监控检查失败: <message>`, and leave the counters untouched.  Either way
`scheduleNextCheck` then re-arms the one-shot timer iff `isRunning`
still holds. -/
def checkCompletes (s : SchedulerState) (outcome : CheckOutcome) : SchedulerState :=
  let applied :=
    match outcome with
    | .ok result =>
      let stats1 := { s.statistics with totalChecks := s.statistics.totalChecks + 1 }
      let stats2 :=
        if result.isFocused then { stats1 with focusedChecks := stats1.focusedChecks + 1 }
        else { stats1 with distractedChecks := stats1.distractedChecks + 1 }
      { s with checkInFlight := false
               lastCheckTime := some result.timestamp
               logs := addLog s.logs result
               statistics := stats2 }
    | .err message now =>
      { s with checkInFlight := false
               logs := addLog s.logs
                 { isFocused := false, reason := str "监控检查失败: " ++ message
                   activeApp := none, timestamp := now, screenshot := none
                   ocrText := none } }
  if applied.isRunning then { applied with timerArmed := true } else applied

/-! ## Supporting lemmas: the bounded log -/

lemma addLog_drop (es : List MonitoringResult) (e : MonitoringResult) :
    addLog (es.drop (es.length - 100)) e = (es ++ [e]).drop (es.length + 1 - 100) := by
  by_cases h : es.length < 100
  · have h0 : es.length - 100 = 0 := by omega
    have h1 : es.length + 1 - 100 = 0 := by omega
    rw [h0, h1, List.drop_zero, List.drop_zero]
    simp only [addLog]
    rw [if_neg (by simp only [List.length_append, List.length_cons, List.length_nil]; omega)]
  · have h2 : (es.drop (es.length - 100)).length = 100 := by
      rw [List.length_drop]; omega
    simp only [addLog]
    have hcond : 100 < (es.drop (es.length - 100) ++ [e]).length := by
      rw [List.length_append, h2]; simp
    rw [if_pos hcond]
    have h3 : (es.drop (es.length - 100) ++ [e]).length - 100 = 1 := by
      rw [List.length_append, h2]
      simp
    rw [h3]
    have h4 : (1 : ℕ) ≤ (es.drop (es.length - 100)).length := by omega
    rw [List.drop_append_of_le_length h4, List.drop_drop]
    have h5 : (es ++ [e]).drop (es.length + 1 - 100) = es.drop (es.length + 1 - 100) ++ [e] := by
      apply List.drop_append_of_le_length; omega
    rw [h5]
    have h6 : es.length - 100 + 1 = es.length + 1 - 100 := by omega
    rw [h6]

lemma foldl_addLog_eq_drop (entries : List MonitoringResult) :
    entries.foldl addLog [] = entries.drop (entries.length - 100) := by
  induction entries using List.reverseRecOn with
  | nil => simp
  | append_singleton es e ih =>
    rw [List.foldl_append, List.foldl_cons, List.foldl_nil, ih, addLog_drop]
    simp

/-- The last entry appended is always the last entry of the log. -/
lemma addLog_getLast? (logs : List MonitoringResult) (e : MonitoringResult) :
    (addLog logs e).getLast? = some e := by
  simp only [addLog]
  by_cases h : 100 < (logs ++ [e]).length
  · rw [if_pos h]
    have hlen : (logs ++ [e]).length = logs.length + 1 := by simp
    have hle : (logs ++ [e]).length - 100 ≤ logs.length := by omega
    rw [List.drop_append_of_le_length hle]
    simp
  · rw [if_neg h]; simp

/-! ## Claim C4 -/

/-- Claim C4: starting from the empty log, after any sequence of `n`
`addLog` appends the log holds exactly the last `min(n, 100)` appended
entries, in insertion (chronological) order — the oldest entries having
been dropped from the front — its length is `min(n, 100)`, and (applied
to every prefix of the sequence) the length never exceeds the capacity
100 at any point. -/
theorem resultLog_bounded_fifo (entries : List MonitoringResult) :
    entries.foldl addLog [] = entries.drop (entries.length - 100) ∧
    (entries.foldl addLog []).length = min entries.length 100 ∧
    ∀ k, ((entries.take k).foldl addLog []).length ≤ 100 := by
  refine ⟨foldl_addLog_eq_drop entries, ?_, ?_⟩
  · rw [foldl_addLog_eq_drop, List.length_drop]; omega
  · intro k
    rw [foldl_addLog_eq_drop, List.length_drop]
    omega

/-! ## Claim C1 -/

/-- The log entry produced by the catch block of `performCheck`. -/
def errorLogEntry (message : JStr) (now : ℤ) : MonitoringResult :=
  { isFocused := false, reason := str "监控检查失败: " ++ message
    activeApp := none, timestamp := now, screenshot := none, ocrText := none }

/-- Claim C1 (counterexample): at a concrete running state with a check
in flight, an error outcome produces a log entry whose `isFocused` field
is `false` — not `true` as the claim's fail-open reading states — and
leaves `totalChecks` at 0 instead of counting the check. -/
theorem errored_check_not_failOpen_counterexample :
    ¬ (((checkCompletes
          { isRunning := true, timerArmed := false, checkInFlight := true
            logs := [], statistics := ⟨0, 0, 0⟩, lastCheckTime := none }
          (.err (str "boom") 5)).logs.map (fun e => e.isFocused) = [true]) ∧
       (checkCompletes
          { isRunning := true, timerArmed := false, checkInFlight := true
            logs := [], statistics := ⟨0, 0, 0⟩, lastCheckTime := none }
          (.err (str "boom") 5)).statistics.totalChecks = 1) := by
  decide

/-- Claim C1 (amended): when the provider or evaluator raises an error
during a check of a running monitor, the error is caught locally and
converted into a log entry whose `isFocused` field is `false`
(fail-closed, reason `监控检查失败: <message>`), the `Statistics`
counters are NOT updated for that check, and the loop continues by
scheduling the next check — the monitor never transitions to Stopped
because of the error. -/
theorem errored_check_failClosed_uncounted_loop_continues
    (s : SchedulerState) (message : JStr) (now : ℤ)
    (hrun : s.isRunning = true) (hflight : s.checkInFlight = true) :
    (checkCompletes s (.err message now)).logs
        = addLog s.logs (errorLogEntry message now) ∧
    (checkCompletes s (.err message now)).logs.getLast?
        = some (errorLogEntry message now) ∧
    (errorLogEntry message now).isFocused = false ∧
    (checkCompletes s (.err message now)).statistics = s.statistics ∧
    (checkCompletes s (.err message now)).isRunning = true ∧
    (checkCompletes s (.err message now)).timerArmed = true := by
  unfold checkCompletes errorLogEntry
  simp [hrun, addLog_getLast?]

/-- Witness for the amended claim C1 at a concrete state. -/
theorem errored_check_failClosed_uncounted_loop_continues_witness :
    ({ isRunning := true, timerArmed := false, checkInFlight := true
       logs := [], statistics := ⟨0, 0, 0⟩,
       lastCheckTime := none } : SchedulerState).isRunning = true ∧
    ({ isRunning := true, timerArmed := false, checkInFlight := true
       logs := [], statistics := ⟨0, 0, 0⟩,
       lastCheckTime := none } : SchedulerState).checkInFlight = true ∧
    ((checkCompletes
        { isRunning := true, timerArmed := false, checkInFlight := true
          logs := [], statistics := ⟨0, 0, 0⟩, lastCheckTime := none }
        (.err (str "boom") 5)).logs
      = addLog [] (errorLogEntry (str "boom") 5) ∧
     (checkCompletes
        { isRunning := true, timerArmed := false, checkInFlight := true
          logs := [], statistics := ⟨0, 0, 0⟩, lastCheckTime := none }
        (.err (str "boom") 5)).logs.getLast?
      = some (errorLogEntry (str "boom") 5) ∧
     (errorLogEntry (str "boom") 5).isFocused = false ∧
     (checkCompletes
        { isRunning := true, timerArmed := false, checkInFlight := true
          logs := [], statistics := ⟨0, 0, 0⟩, lastCheckTime := none }
        (.err (str "boom") 5)).statistics = ⟨0, 0, 0⟩ ∧
     (checkCompletes
        { isRunning := true, timerArmed := false, checkInFlight := true
          logs := [], statistics := ⟨0, 0, 0⟩, lastCheckTime := none }
        (.err (str "boom") 5)).isRunning = true ∧
     (checkCompletes
        { isRunning := true, timerArmed := false, checkInFlight := true
          logs := [], statistics := ⟨0, 0, 0⟩, lastCheckTime := none }
        (.err (str "boom") 5)).timerArmed = true) :=
  ⟨rfl, rfl,
    errored_check_failClosed_uncounted_loop_continues _ (str "boom") 5 rfl rfl⟩

/-! ## Claim C3 -/

/-- Claim C3 (counterexample): at a concrete state with a check in
flight, calling `stopMonitoring` and then letting the check complete
does NOT discard the result: a log entry is appended and the statistics
are updated, contradicting the claim. -/
theorem inflight_result_not_discarded_counterexample :
    ¬ ((checkCompletes
          (stopMonitoring
            { isRunning := true, timerArmed := true, checkInFlight := true
              logs := [], statistics := ⟨0, 0, 0⟩, lastCheckTime := none })
          (.ok { isFocused := true, reason := str "ok", activeApp := none
                 timestamp := 7, screenshot := none, ocrText := none })).logs = [] ∧
       (checkCompletes
          (stopMonitoring
            { isRunning := true, timerArmed := true, checkInFlight := true
              logs := [], statistics := ⟨0, 0, 0⟩, lastCheckTime := none })
          (.ok { isFocused := true, reason := str "ok", activeApp := none
                 timestamp := 7, screenshot := none, ocrText := none })).statistics
         = ⟨0, 0, 0⟩) := by
  decide

/-- Claim C3 (amended): a check in flight when `stopMonitoring` runs is
NOT discarded — once it completes, its result is still appended to the
log and counted in the statistics exactly as if the monitor were
running; stopping only suppresses the re-arming of the next timer (and
the monitor stays stopped). -/
theorem inflight_result_applied_after_stop
    (s : SchedulerState) (result : MonitoringResult)
    (hrun : s.isRunning = true) (hflight : s.checkInFlight = true) :
    (checkCompletes (stopMonitoring s) (.ok result)).logs = addLog s.logs result ∧
    (checkCompletes (stopMonitoring s) (.ok result)).statistics.totalChecks
        = s.statistics.totalChecks + 1 ∧
    (checkCompletes (stopMonitoring s) (.ok result)).statistics.focusedChecks
        = s.statistics.focusedChecks + (if result.isFocused then 1 else 0) ∧
    (checkCompletes (stopMonitoring s) (.ok result)).statistics.distractedChecks
        = s.statistics.distractedChecks + (if result.isFocused then 0 else 1) ∧
    (checkCompletes (stopMonitoring s) (.ok result)).timerArmed = false ∧
    (checkCompletes (stopMonitoring s) (.ok result)).isRunning = false := by
  unfold checkCompletes stopMonitoring
  by_cases hf : result.isFocused <;> simp [hrun, hf]

/-- Witness for the amended claim C3 at a concrete state. -/
theorem inflight_result_applied_after_stop_witness :
    ({ isRunning := true, timerArmed := true, checkInFlight := true
       logs := [], statistics := ⟨0, 0, 0⟩,
       lastCheckTime := none } : SchedulerState).isRunning = true ∧
    ({ isRunning := true, timerArmed := true, checkInFlight := true
       logs := [], statistics := ⟨0, 0, 0⟩,
       lastCheckTime := none } : SchedulerState).checkInFlight = true ∧
    ((checkCompletes
        (stopMonitoring
          { isRunning := true, timerArmed := true, checkInFlight := true
            logs := [], statistics := ⟨0, 0, 0⟩, lastCheckTime := none })
        (.ok { isFocused := true, reason := str "ok", activeApp := none
               timestamp := 7, screenshot := none, ocrText := none })).logs
      = addLog [] { isFocused := true, reason := str "ok", activeApp := none
                    timestamp := 7, screenshot := none, ocrText := none } ∧
     (checkCompletes
        (stopMonitoring
          { isRunning := true, timerArmed := true, checkInFlight := true
            logs := [], statistics := ⟨0, 0, 0⟩, lastCheckTime := none })
        (.ok { isFocused := true, reason := str "ok", activeApp := none
               timestamp := 7, screenshot := none, ocrText := none })).statistics.totalChecks
      = 0 + 1 ∧
     (checkCompletes
        (stopMonitoring
          { isRunning := true, timerArmed := true, checkInFlight := true
            logs := [], statistics := ⟨0, 0, 0⟩, lastCheckTime := none })
        (.ok { isFocused := true, reason := str "ok", activeApp := none
               timestamp := 7, screenshot := none, ocrText := none })).statistics.focusedChecks
      = 0 + (if ({ isFocused := true, reason := str "ok", activeApp := none
                   timestamp := 7, screenshot := none,
                   ocrText := none } : MonitoringResult).isFocused then 1 else 0) ∧
     (checkCompletes
        (stopMonitoring
          { isRunning := true, timerArmed := true, checkInFlight := true
            logs := [], statistics := ⟨0, 0, 0⟩, lastCheckTime := none })
        (.ok { isFocused := true, reason := str "ok", activeApp := none
               timestamp := 7, screenshot := none, ocrText := none })).statistics.distractedChecks
      = 0 + (if ({ isFocused := true, reason := str "ok", activeApp := none
                   timestamp := 7, screenshot := none,
                   ocrText := none } : MonitoringResult).isFocused then 0 else 1) ∧
     (checkCompletes
        (stopMonitoring
          { isRunning := true, timerArmed := true, checkInFlight := true
            logs := [], statistics := ⟨0, 0, 0⟩, lastCheckTime := none })
        (.ok { isFocused := true, reason := str "ok", activeApp := none
               timestamp := 7, screenshot := none, ocrText := none })).timerArmed = false ∧
     (checkCompletes
        (stopMonitoring
          { isRunning := true, timerArmed := true, checkInFlight := true
            logs := [], statistics := ⟨0, 0, 0⟩, lastCheckTime := none })
        (.ok { isFocused := true, reason := str "ok", activeApp := none
               timestamp := 7, screenshot := none, ocrText := none })).isRunning = false) :=
  ⟨rfl, rfl,
    inflight_result_applied_after_stop _ _ rfl rfl⟩

/-! ## Supporting lemmas: `findBestMatch` -/

lemma bestStep_foldl_spec (t : JStr) (cs : List JStr) :
    ∀ acc : Option JStr × ℚ × JStr,
      cs.foldl (bestStep t) acc = acc ∨
      ∃ b ∈ cs, cs.foldl (bestStep t) acc
        = (some b, calculateMatchScore t b, normalizeBasic b) := by
  induction cs with
  | nil => intro acc; left; rfl
  | cons c cs ih =>
    intro acc
    rw [List.foldl_cons]
    rcases ih (bestStep t acc c) with h | ⟨b, hb, h⟩
    · by_cases hc :
        calculateMatchScore t c > acc.2.1 ∧ calculateMatchScore t c > mkRat 3 5
      · right
        refine ⟨c, List.mem_cons_self c cs, ?_⟩
        rw [h]
        simp [bestStep, hc]
      · left
        rw [h]
        simp [bestStep, hc]
    · right
      exact ⟨b, List.mem_cons_of_mem c hb, h⟩

/-- A `findBestMatch` result with a nonzero score names a candidate from
the list and carries that candidate's score. -/
lemma findBestMatch_spec (t : JStr) (cs : List JStr)
    (h : (findBestMatch t cs).score ≠ 0) :
    ∃ b ∈ cs, (findBestMatch t cs).matched = some b ∧
      (findBestMatch t cs).score = calculateMatchScore t b := by
  by_cases hg : t = [] ∨ cs = []
  · exfalso
    apply h
    simp [findBestMatch, hg]
  · rcases bestStep_foldl_spec t cs ((none : Option JStr), (0 : ℚ), ([] : JStr))
      with hr | ⟨b, hb, hr⟩
    · exfalso
      apply h
      simp [findBestMatch, hg, hr]
    · exact ⟨b, hb, by simp [findBestMatch, hg, hr]⟩

/-! ## Claim C2 -/

/-- Claim C2: when an active application is detected and the blocked
list is non-empty, and `findBestMatch` against the blocked list scores
above `0.6`, the decision is Distracted (`isFocused = false`) with the
matched blocked entry occurring verbatim inside the reason — and the
whole outcome is independent of the allowed list (the allowed-list check
is never consulted), as witnessed by agreement with an empty allowed
list. -/
theorem blockedList_precedence (ts : ℤ) (app : JStr)
    (allowedApps blockedApps : List JStr)
    (hb : blockedApps ≠ [])
    (hscore : mkRat 3 5 < (findBestMatch app blockedApps).score) :
    (analyzeCurrentFocus ts (some app) allowedApps blockedApps).isFocused = false ∧
    (∃ b, b ∈ blockedApps ∧ (findBestMatch app blockedApps).matched = some b ∧
      b <:+: (analyzeCurrentFocus ts (some app) allowedApps blockedApps).reason) ∧
    analyzeCurrentFocus ts (some app) allowedApps blockedApps
      = analyzeCurrentFocus ts (some app) [] blockedApps := by
  have hne : (findBestMatch app blockedApps).score ≠ 0 := by
    intro h0
    rw [h0] at hscore
    exact absurd hscore (by decide)
  obtain ⟨b, hbmem, hmatched, _⟩ := findBestMatch_spec app blockedApps hne
  have hverdict : checkBlockedApps app blockedApps
      = { isFocused := false
          reason := str "使用了被屏蔽的应用: " ++ b
            ++ str " (匹配度: " ++ formatPct (findBestMatch app blockedApps).score
            ++ str "%)" } := by
    unfold checkBlockedApps
    rw [if_pos hscore, hmatched]
    rfl
  have hcond : 0 < blockedApps.length ∧
      (checkBlockedApps app blockedApps).isFocused = false := by
    exact ⟨List.length_pos.mpr hb, by rw [hverdict]⟩
  have hres : ∀ allowed : List JStr,
      analyzeCurrentFocus ts (some app) allowed blockedApps
        = { isFocused := false, reason := (checkBlockedApps app blockedApps).reason
            activeApp := some app, timestamp := ts, screenshot := none
            ocrText := none } := by
    intro allowed
    simp only [analyzeCurrentFocus]
    rw [if_pos hcond]
  refine ⟨by rw [hres allowedApps], ⟨b, hbmem, hmatched, ?_⟩, by rw [hres, hres]⟩
  rw [hres allowedApps, hverdict]
  exact ⟨str "使用了被屏蔽的应用: ",
    str " (匹配度: " ++ formatPct (findBestMatch app blockedApps).score ++ str "%)",
    by simp [List.append_assoc]⟩

/-- Witness for claim C2: `WeChat` against blocked list `["WeChat"]`
and a non-trivially matching allowed list. -/
theorem blockedList_precedence_witness :
    ([str "WeChat"] ≠ ([] : List JStr)) ∧
    (mkRat 3 5 < (findBestMatch (str "WeChat") [str "WeChat"]).score) ∧
    ((analyzeCurrentFocus 0 (some (str "WeChat"))
        [str "WeChat Work"] [str "WeChat"]).isFocused = false ∧
     (∃ b, b ∈ [str "WeChat"] ∧
        (findBestMatch (str "WeChat") [str "WeChat"]).matched = some b ∧
        b <:+: (analyzeCurrentFocus 0 (some (str "WeChat"))
          [str "WeChat Work"] [str "WeChat"]).reason) ∧
     analyzeCurrentFocus 0 (some (str "WeChat")) [str "WeChat Work"] [str "WeChat"]
       = analyzeCurrentFocus 0 (some (str "WeChat")) [] [str "WeChat"]) :=
  ⟨by decide, by decide,
    blockedList_precedence 0 (str "WeChat") [str "WeChat Work"] [str "WeChat"]
      (by decide) (by decide)⟩

/-! ## Claim C7 -/

/-- Claim C7 (counterexample): on the spec's pair the two directions are
EQUAL, not different — the alias table maps `"code"` to
`"visual studio code"`, so both directions hit the canonical-exact tier
and score `1.0`. -/
theorem score_code_vsc_symmetric_counterexample :
    calculateMatchScore (str "code") (str "visual studio code")
      = calculateMatchScore (str "visual studio code") (str "code") := by
  decide

/-- Claim C7 (amended): the scoring function is asymmetric, but not on
the spec's pair (which aliasing makes symmetric, both directions
scoring `1.0`); a pair decided by the containment tiers exhibits the
asymmetry: `score("google", "google chrome") = 0.9` while
`score("google chrome", "google") = 0.85`. -/
theorem score_asymmetric_on_containment_pair :
    calculateMatchScore (str "google") (str "google chrome")
      ≠ calculateMatchScore (str "google chrome") (str "google") := by
  decide

/-! ## Supporting lemmas: `findAllMatches` -/

/-- The Boolean test "this entry's score is exactly `q`", used to state
sort stability scorewise. -/
def scoreIs (q : ℚ) : AppScoreEntry → Bool := fun e => decide (e.score = q)

lemma mem_findAllMatchesUnsorted_score {t : JStr} {cs : List JStr} {θ : ℚ}
    {e : AppScoreEntry} (he : e ∈ findAllMatchesUnsorted t cs θ) : θ ≤ e.score := by
  unfold findAllMatchesUnsorted at he
  split at he
  · simp at he
  · obtain ⟨c, _, heq⟩ := List.mem_filterMap.mp he
    by_cases hθ : calculateMatchScore t c ≥ θ
    · simp only [hθ, if_pos] at heq
      cases heq
      exact hθ
    · simp [hθ] at heq

lemma filter_orderedInsert (q : ℚ) (x : AppScoreEntry) (l : List AppScoreEntry) :
    (List.orderedInsert byScoreDesc x l).filter (scoreIs q)
      = if x.score = q then x :: l.filter (scoreIs q) else l.filter (scoreIs q) := by
  induction l with
  | nil =>
    by_cases hq : x.score = q <;> simp [List.orderedInsert, scoreIs, hq]
  | cons h t ih =>
    simp only [List.orderedInsert]
    by_cases hcmp : byScoreDesc x h
    · rw [if_pos hcmp]
      by_cases hq : x.score = q <;> simp [scoreIs, hq]
    · rw [if_neg hcmp]
      have hcmp' : ¬ (h.score ≤ x.score) := hcmp
      have hh : x.score < h.score := lt_of_not_le hcmp'
      rw [List.filter_cons, List.filter_cons, ih]
      by_cases hq : x.score = q
      · have hhq : h.score ≠ q := hq ▸ ne_of_gt hh
        simp [scoreIs, hhq, hq]
      · simp [hq]

lemma filter_insertionSort (q : ℚ) (l : List AppScoreEntry) :
    (List.insertionSort byScoreDesc l).filter (scoreIs q) = l.filter (scoreIs q) := by
  induction l with
  | nil => rfl
  | cons x t ih =>
    simp only [List.insertionSort, filter_orderedInsert, ih]
    by_cases hq : x.score = q
    · simp [List.filter_cons, scoreIs, hq]
    · simp [List.filter_cons, scoreIs, hq]

/-! ## Claim C6 -/

/-- Claim C6: every element of `findAllMatches target candidates
threshold` has score ≥ threshold; the list is sorted in descending order
of score; and elements with equal scores appear in the same relative
order as in the threshold-filtered input (`findAllMatchesUnsorted`),
which lists candidates in input order — i.e. the sort is stable. -/
theorem findAllMatches_threshold_sorted_stable (t : JStr) (cs : List JStr) (θ : ℚ) :
    (∀ e ∈ findAllMatches t cs θ, θ ≤ e.score) ∧
    List.Pairwise (fun a b => b.score ≤ a.score) (findAllMatches t cs θ) ∧
    ∀ q : ℚ, (findAllMatches t cs θ).filter (scoreIs q)
        = (findAllMatchesUnsorted t cs θ).filter (scoreIs q) := by
  refine ⟨?_, ?_, ?_⟩
  · intro e he
    exact mem_findAllMatchesUnsorted_score
      ((List.perm_insertionSort byScoreDesc _).subset he)
  · exact List.sorted_insertionSort byScoreDesc _
  · intro q
    exact filter_insertionSort q _

/-! ## Supporting lemmas: the normalizer -/

lemma jsToLower_not_upper (c : Char) :
    ¬ (65 ≤ (jsToLower c).toNat ∧ (jsToLower c).toNat ≤ 90) := by
  unfold jsToLower
  by_cases h : 65 ≤ c.toNat ∧ c.toNat ≤ 90
  · rw [if_pos h]
    have hbound : ∀ n, n < 91 → 65 ≤ n →
        ¬ (65 ≤ (Char.ofNat (n + 32)).toNat ∧ (Char.ofNat (n + 32)).toNat ≤ 90) := by
      decide
    exact hbound c.toNat (by omega) h.1
  · rw [if_neg h]
    exact h

lemma mem_map_not_upper {s : JStr} {c : Char} (h : c ∈ s.map jsToLower) :
    ¬ (65 ≤ c.toNat ∧ c.toNat ≤ 90) := by
  obtain ⟨d, _, rfl⟩ := List.mem_map.mp h
  exact jsToLower_not_upper d

lemma map_fix {f : Char → Char} : ∀ {l : JStr}, (∀ c ∈ l, f c = c) → l.map f = l := by
  intro l
  induction l with
  | nil => intro _; rfl
  | cons c rest ih =>
    intro h
    rw [List.map_cons, h c (List.mem_cons_self _ _),
      ih fun d hd => h d (List.mem_cons_of_mem _ hd)]

lemma stripExtension_subset {s : JStr} {c : Char} (h : c ∈ stripExtension s) : c ∈ s := by
  unfold stripExtension at h
  split at h
  · exact List.take_subset _ _ h
  · exact h

lemma stripExtension_fix {s : JStr} (hdot : '.' ∉ s) : stripExtension s = s := by
  unfold stripExtension
  rw [if_neg]
  rintro (h | h | h | h) <;>
    exact hdot (h.subset (by decide))

lemma mem_replaceSpecial_test {s : JStr} {c : Char} (h : c ∈ replaceSpecial s) :
    (isWordChar c || isSpaceChar c || c == '-') = true := by
  obtain ⟨d, _, rfl⟩ := List.mem_map.mp h
  by_cases hd : (isWordChar d || isSpaceChar d || d == '-') = true
  · rw [if_pos hd]; exact hd
  · rw [if_neg hd]; decide

lemma mem_replaceSpecial_src {s : JStr} {c : Char} (h : c ∈ replaceSpecial s) :
    c = ' ' ∨ c ∈ s := by
  obtain ⟨d, hd, rfl⟩ := List.mem_map.mp h
  by_cases hcond : (isWordChar d || isSpaceChar d || d == '-') = true
  · rw [if_pos hcond]; exact Or.inr hd
  · rw [if_neg hcond]; exact Or.inl rfl

lemma mem_replaceSpecial_not_upper {u : JStr}
    (hu : ∀ c ∈ u, ¬ (65 ≤ c.toNat ∧ c.toNat ≤ 90)) :
    ∀ c ∈ replaceSpecial u, ¬ (65 ≤ c.toNat ∧ c.toNat ≤ 90) := by
  intro c hc
  rcases mem_replaceSpecial_src hc with h | h
  · subst h; decide
  · exact hu c h

lemma dot_not_mem_replaceSpecial (s : JStr) : '.' ∉ replaceSpecial s := by
  intro h
  exact absurd (mem_replaceSpecial_test h) (by decide)

lemma collapseWsAux_cons_space {c : Char} (hc : isSpaceChar c = true) (rest : JStr) :
    collapseWsAux true (c :: rest) = collapseWsAux true rest ∧
    collapseWsAux false (c :: rest) = ' ' :: collapseWsAux true rest := by
  constructor <;> simp [collapseWsAux, hc]

lemma collapseWsAux_cons_nonspace {c : Char} (hc : isSpaceChar c = false) (rest : JStr)
    (b : Bool) : collapseWsAux b (c :: rest) = c :: collapseWsAux false rest := by
  simp [collapseWsAux, hc]

lemma mem_collapseWsAux {c : Char} :
    ∀ (b : Bool) (s : JStr), c ∈ collapseWsAux b s →
      c = ' ' ∨ (c ∈ s ∧ isSpaceChar c = false) := by
  intro b s
  induction s generalizing b with
  | nil => intro h; simp [collapseWsAux] at h
  | cons d rest ih =>
    intro h
    by_cases hd : isSpaceChar d = true
    · have heq := collapseWsAux_cons_space hd rest
      cases b with
      | true =>
        rw [heq.1] at h
        rcases ih true h with h1 | ⟨h1, h2⟩
        · exact Or.inl h1
        · exact Or.inr ⟨List.mem_cons_of_mem _ h1, h2⟩
      | false =>
        rw [heq.2] at h
        rcases List.mem_cons.mp h with h1 | h1
        · exact Or.inl h1
        · rcases ih true h1 with h2 | ⟨h2, h3⟩
          · exact Or.inl h2
          · exact Or.inr ⟨List.mem_cons_of_mem _ h2, h3⟩
    · have hd' : isSpaceChar d = false := by simpa using hd
      rw [collapseWsAux_cons_nonspace hd' rest b] at h
      rcases List.mem_cons.mp h with h1 | h1
      · subst h1
        exact Or.inr ⟨List.mem_cons_self _ _, hd'⟩
      · rcases ih false h1 with h2 | ⟨h2, h3⟩
        · exact Or.inl h2
        · exact Or.inr ⟨List.mem_cons_of_mem _ h2, h3⟩

/-- No two adjacent whitespace characters. -/
def NoTwoSpaces : Char → Char → Prop :=
  fun a b => ¬ (isSpaceChar a = true ∧ isSpaceChar b = true)

/-- Heads produced while the previous character was whitespace are never
whitespace, and the collapsed output never has two adjacent whitespace
characters. -/
lemma collapseWsAux_chain :
    ∀ s : JStr, (∀ b, List.Chain' NoTwoSpaces (collapseWsAux b s)) ∧
      (∀ d, (collapseWsAux true s).head? = some d → isSpaceChar d = false) := by
  intro s
  induction s with
  | nil =>
    refine ⟨fun b => ?_, fun d h => by simp [collapseWsAux] at h⟩
    cases b <;> exact List.chain'_nil
  | cons c rest ih =>
    by_cases hc : isSpaceChar c = true
    · have heq := collapseWsAux_cons_space hc rest
      refine ⟨fun b => ?_, fun d h => ?_⟩
      · cases b with
        | true => rw [heq.1]; exact ih.1 true
        | false =>
          rw [heq.2, List.chain'_cons']
          refine ⟨fun y hy => ?_, ih.1 true⟩
          intro ⟨_, hy2⟩
          rw [ih.2 y hy] at hy2
          cases hy2
      · rw [heq.1] at h
        exact ih.2 d h
    · have hc' : isSpaceChar c = false := by simpa using hc
      have heq := collapseWsAux_cons_nonspace hc' rest
      refine ⟨fun b => ?_, fun d h => ?_⟩
      · rw [heq b, List.chain'_cons']
        refine ⟨fun y _ => ?_, ih.1 false⟩
        intro ⟨hy1, _⟩
        rw [hc'] at hy1
        cases hy1
      · rw [heq true] at h
        have : c = d := by simpa using h
        subst this
        exact hc'

/-- A list's head cannot be anything the `dropWhile` predicate accepts. -/
lemma head?_dropWhile (p : Char → Bool) :
    ∀ (s : JStr) (d : Char), (s.dropWhile p).head? = some d → p d = false := by
  intro s
  induction s with
  | nil => intro d h; simp at h
  | cons c rest ih =>
    intro d h
    rw [List.dropWhile_cons] at h
    by_cases hc : p c = true
    · rw [if_pos hc] at h
      exact ih d h
    · rw [if_neg hc] at h
      have : c = d := by simpa using h
      subst this
      simpa using hc

lemma trimWs_pre (s : JStr) : trimWs s <+: s.dropWhile isSpaceChar := by
  unfold trimWs
  obtain ⟨t, ht⟩ :=
    List.dropWhile_suffix (l := (s.dropWhile isSpaceChar).reverse) isSpaceChar
  refine ⟨t.reverse, ?_⟩
  calc ((s.dropWhile isSpaceChar).reverse.dropWhile isSpaceChar).reverse ++ t.reverse
      = (t ++ (s.dropWhile isSpaceChar).reverse.dropWhile isSpaceChar).reverse := by
        rw [List.reverse_append]
    _ = (s.dropWhile isSpaceChar).reverse.reverse := by rw [ht]
    _ = s.dropWhile isSpaceChar := List.reverse_reverse _

lemma trimWs_within (s : JStr) : trimWs s <:+: s :=
  (trimWs_pre s).isInfix.trans (List.dropWhile_suffix isSpaceChar).isInfix

/-- The (optional) head of the trimmed string is not whitespace. -/
lemma trimWs_head (s : JStr) :
    ∀ d, (trimWs s).head? = some d → isSpaceChar d = false := by
  intro d hd
  obtain ⟨t, ht⟩ := trimWs_pre s
  apply head?_dropWhile isSpaceChar s d
  rw [← ht]
  cases htr : trimWs s with
  | nil => rw [htr] at hd; simp at hd
  | cons x xs =>
    rw [htr] at hd
    have : x = d := by simpa using hd
    subst this
    simp

/-- The (optional) last character of the trimmed string is not
whitespace. -/
lemma trimWs_last (s : JStr) :
    ∀ d, (trimWs s).getLast? = some d → isSpaceChar d = false := by
  intro d hd
  unfold trimWs at hd
  rw [List.getLast?_reverse] at hd
  exact head?_dropWhile isSpaceChar _ d hd

/-- `collapseWs` is the identity on strings whose whitespace characters
are all plain spaces with no two adjacent. -/
lemma collapseWsAux_fix :
    ∀ s : JStr, (∀ c ∈ s, isSpaceChar c = true → c = ' ') →
      List.Chain' NoTwoSpaces s →
      collapseWsAux false s = s ∧
        ((∀ d, s.head? = some d → isSpaceChar d = false) → collapseWsAux true s = s) := by
  intro s
  induction s with
  | nil => intro _ _; exact ⟨rfl, fun _ => rfl⟩
  | cons c rest ih =>
    intro hsp hch
    have hch' : List.Chain' NoTwoSpaces rest := hch.tail
    have hsp' : ∀ x ∈ rest, isSpaceChar x = true → x = ' ' :=
      fun x hx => hsp x (List.mem_cons_of_mem _ hx)
    by_cases hc : isSpaceChar c = true
    · have hceq : c = ' ' := hsp c (List.mem_cons_self _ _) hc
      have hrest : ∀ d, rest.head? = some d → isSpaceChar d = false := by
        intro d hd
        cases rest with
        | nil => simp at hd
        | cons e t =>
          have hde : e = d := by simpa using hd
          subst hde
          have hR : NoTwoSpaces c e := (List.chain'_cons.mp hch).1
          cases hB : isSpaceChar e with
          | false => rfl
          | true => exact absurd ⟨hc, hB⟩ hR
      have htail : collapseWsAux true rest = rest := (ih hsp' hch').2 hrest
      refine ⟨?_, fun hhead => ?_⟩
      · rw [(collapseWsAux_cons_space hc rest).2, htail, hceq]
      · have := hhead c rfl
        rw [hc] at this
        cases this
    · have hc' : isSpaceChar c = false := by simpa using hc
      have hfix : collapseWsAux false rest = rest := (ih hsp' hch').1
      exact ⟨by rw [collapseWsAux_cons_nonspace hc' rest false, hfix],
        fun _ => by rw [collapseWsAux_cons_nonspace hc' rest true, hfix]⟩

/-- `trimWs` is the identity on strings with non-whitespace end
characters. -/
lemma trimWs_fix (s : JStr)
    (hh : ∀ d, s.head? = some d → isSpaceChar d = false)
    (hl : ∀ d, s.getLast? = some d → isSpaceChar d = false) : trimWs s = s := by
  unfold trimWs
  have h1 : s.dropWhile isSpaceChar = s := by
    cases s with
    | nil => rfl
    | cons c t =>
      rw [List.dropWhile_cons, if_neg]
      have := hh c rfl
      simp [this]
  rw [h1]
  have h2 : s.reverse.dropWhile isSpaceChar = s.reverse := by
    cases hs : s.reverse with
    | nil => rfl
    | cons c t =>
      rw [List.dropWhile_cons, if_neg]
      have hcl : s.getLast? = some c := by
        rw [← List.head?_reverse, hs]
        rfl
      have := hl c hcl
      simp [this]
  rw [h2, List.reverse_reverse]

/-! ## Claim C8 -/

/-- Claim C8 (counterexample): underscores survive normalization — `\w`
keeps `_` — so the output of `normalizeBasic "a_b"` contains a character
that is neither a letter, a digit, a space nor a hyphen. -/
theorem normalize_chars_counterexample :
    '_' ∈ normalizeBasic (str "a_b") ∧
    ¬ (Char.isAlpha '_' = true ∨ Char.isDigit '_' = true ∨ '_' = ' ' ∨ '_' = '-') := by
  decide

/-- Claim C8 (amended): every character of `normalizeBasic raw` is a
letter, a digit, a space, a hyphen, or an underscore (the `\w` class
keeps `_`); all other characters are replaced by spaces before
whitespace is collapsed and the result trimmed. -/
theorem normalize_chars_classification (raw : JStr) :
    ∀ c ∈ normalizeBasic raw,
      Char.isAlpha c = true ∨ Char.isDigit c = true ∨ c = ' ' ∨ c = '-' ∨ c = '_' := by
  intro c hc
  unfold normalizeBasic at hc
  by_cases hr : raw = []
  · rw [if_pos hr] at hc
    simp at hc
  · rw [if_neg hr] at hc
    rcases mem_collapseWsAux false _ ((trimWs_within _).subset hc) with h | ⟨h, hns⟩
    · exact Or.inr (Or.inr (Or.inl h))
    · have htest := mem_replaceSpecial_test h
      simp only [isWordChar, Bool.or_eq_true, beq_iff_eq] at htest
      rcases htest with ((h1 | h1) | h1) | h1
      · rcases h1 with h2 | h2
        · exact Or.inl h2
        · exact Or.inr (Or.inl h2)
      · exact Or.inr (Or.inr (Or.inr (Or.inr h1)))
      · rw [hns] at h1
        cases h1
      · exact Or.inr (Or.inr (Or.inr (Or.inl h1)))

/-- Witness for the amended claim C8 at `raw = "a_b"`, `c = '_'`. -/
theorem normalize_chars_classification_witness :
    ('_' ∈ normalizeBasic (str "a_b")) ∧
    (Char.isAlpha '_' = true ∨ Char.isDigit '_' = true ∨ '_' = ' ' ∨ '_' = '-' ∨ '_' = '_') :=
  ⟨by decide, normalize_chars_classification (str "a_b") '_' (by decide)⟩

/-! ## Claim C9 -/

/-- Claim C9: the normalizer is idempotent —
`normalizeBasic (normalizeBasic x) = normalizeBasic x` for every input. -/
theorem normalizeBasic_idempotent (x : JStr) :
    normalizeBasic (normalizeBasic x) = normalizeBasic x := by
  by_cases hx : x = []
  · subst hx; rfl
  · have hxy : normalizeBasic x
        = trimWs (collapseWs (replaceSpecial (stripExtension (x.map jsToLower)))) := by
      rw [normalizeBasic, if_neg hx]
    set w := replaceSpecial (stripExtension (x.map jsToLower)) with hw
    set y := trimWs (collapseWs w) with hy
    rw [hxy]
    by_cases hyemp : y = []
    · rw [hyemp]; rfl
    · rw [normalizeBasic, if_neg hyemp]
      have hmemw : ∀ c ∈ y, c = ' ' ∨ (c ∈ w ∧ isSpaceChar c = false) := by
        intro c hcy
        exact mem_collapseWsAux false w ((trimWs_within _).subset hcy)
      have hup : ∀ c ∈ y, ¬ (65 ≤ c.toNat ∧ c.toNat ≤ 90) := by
        intro c hcy
        rcases hmemw c hcy with h | ⟨h, _⟩
        · subst h; decide
        · refine mem_replaceSpecial_not_upper ?_ c h
          intro d hd
          exact mem_map_not_upper (stripExtension_subset hd)
      have hmap : y.map jsToLower = y := by
        apply map_fix
        intro c hcy
        unfold jsToLower
        rw [if_neg (hup c hcy)]
      have hdot : '.' ∉ y := by
        intro hin
        rcases hmemw '.' hin with h | ⟨h, _⟩
        · exact absurd h (by decide)
        · exact dot_not_mem_replaceSpecial _ h
      have hstrip : stripExtension y = y := stripExtension_fix hdot
      have hrepl : replaceSpecial y = y := by
        apply map_fix
        intro c hcy
        rcases hmemw c hcy with h | ⟨h, _⟩
        · subst h
          rw [if_pos (by decide)]
        · rw [if_pos (mem_replaceSpecial_test h)]
      have hchain : List.Chain' NoTwoSpaces y :=
        List.Chain'.infix ((collapseWsAux_chain w).1 false) (trimWs_within _)
      have hsp : ∀ c ∈ y, isSpaceChar c = true → c = ' ' := by
        intro c hcy hspc
        rcases hmemw c hcy with h | ⟨_, h⟩
        · exact h
        · rw [h] at hspc; cases hspc
      have hcoll : collapseWs y = y := (collapseWsAux_fix y hsp hchain).1
      have htrim : trimWs y = y := trimWs_fix y (trimWs_head _) (trimWs_last _)
      rw [hmap, hstrip, hrepl, hcoll, htrim]

/-! ## Supporting lemmas: Levenshtein and Jaro-Winkler bounds -/

lemma levenshteinDistance_le_aux :
    ∀ (n : Nat) (s1 s2 : JStr), s1.length + s2.length ≤ n →
      levenshteinDistance s1 s2 ≤ max s1.length s2.length := by
  intro n
  induction n with
  | zero =>
    intro s1 s2 h
    have h1 : s1 = [] := List.length_eq_zero.mp (by omega)
    have h2 : s2 = [] := List.length_eq_zero.mp (by omega)
    subst h1; subst h2
    simp [levenshteinDistance]
  | succ n ih =>
    intro s1 s2 h
    match s1, s2 with
    | [], s2 => simp [levenshteinDistance]
    | c1 :: s1, [] => simp [levenshteinDistance]
    | c1 :: s1, c2 :: s2 =>
      have hlen : s1.length + s2.length ≤ n := by
        simp only [List.length_cons] at h
        omega
      have hsub := ih s1 s2 hlen
      have hstep : levenshteinDistance (c1 :: s1) (c2 :: s2)
          ≤ levenshteinDistance s1 s2 + (if c1 = c2 then 0 else 1) := by
        rw [levenshteinDistance]
        exact min_le_right _ _
      have hcost : (if c1 = c2 then 0 else 1) ≤ 1 := by split <;> omega
      simp only [List.length_cons]
      omega

lemma levenshteinDistance_le (s1 s2 : JStr) :
    levenshteinDistance s1 s2 ≤ max s1.length s2.length :=
  levenshteinDistance_le_aux (s1.length + s2.length) s1 s2 le_rfl

lemma countP_set_true :
    ∀ (l : List Bool) (j : Nat), l.getD j true = false →
      (l.set j true).countP id = l.countP id + 1 := by
  intro l
  induction l with
  | nil => intro j h; simp [List.getD] at h
  | cons b t ih =>
    intro j h
    cases j with
    | zero =>
      have hb : b = false := by simpa using h
      subst hb
      simp [List.countP_cons]
    | succ j =>
      have h' : t.getD j true = false := by simpa using h
      simp only [List.set, List.countP_cons, ih j h']
      omega

lemma countP_replicate_false (n : Nat) : (List.replicate n false).countP id = 0 := by
  simp [List.countP_eq_zero]

lemma matchedChars_cons (c : Char) (s : JStr) (b : Bool) (fl : List Bool) :
    matchedChars (c :: s) (b :: fl)
      = if b then c :: matchedChars s fl else matchedChars s fl := by
  unfold matchedChars
  cases b <;> simp

lemma matchedChars_length :
    ∀ (s : JStr) (flags : List Bool), flags.length = s.length →
      (matchedChars s flags).length = flags.countP id := by
  intro s
  induction s with
  | nil =>
    intro flags h
    have : flags = [] := List.length_eq_zero.mp (by simpa using h)
    subst this
    rfl
  | cons c rest ih =>
    intro flags h
    cases flags with
    | nil => simp at h
    | cons b fl =>
      have h' : fl.length = rest.length := by simpa using h
      rw [matchedChars_cons]
      cases b <;> simp [List.countP_cons, ih fl h']

lemma jaroGo_spec (s2 : JStr) (w : Nat) :
    ∀ (s1 : JStr) (i : Nat) (f2 : List Bool),
      ((jaroGo s2 w s1 i f2).1).length = s1.length ∧
      ((jaroGo s2 w s1 i f2).2).length = f2.length ∧
      ((jaroGo s2 w s1 i f2).2).countP id
        = f2.countP id + ((jaroGo s2 w s1 i f2).1).countP id := by
  intro s1
  induction s1 with
  | nil => intro i f2; simp [jaroGo]
  | cons c rest ih =>
    intro i f2
    cases hfind : findUnmatchedIdx c s2 f2 (i - w) (min (i + w + 1) s2.length) with
    | some j =>
      have hj : f2.getD j true = false := by
        have hfind' : List.find?
            (fun j => !f2.getD j true && (s2.getD j ' ' == c))
            (List.range' (i - w) (min (i + w + 1) s2.length - (i - w))) = some j := by
          unfold findUnmatchedIdx at hfind
          exact hfind
        have hpred := List.find?_some hfind'
        simp only [Bool.and_eq_true, Bool.not_eq_true'] at hpred
        exact hpred.1
      obtain ⟨h1, h2, h3⟩ := ih (i + 1) (f2.set j true)
      have hset := countP_set_true f2 j hj
      simp only [jaroGo, hfind]
      refine ⟨by simpa using h1, by simpa [List.length_set] using h2, ?_⟩
      simp only [List.countP_cons, h3, hset]
      simp [Bool.and_eq_true]
      omega
    | none =>
      obtain ⟨h1, h2, h3⟩ := ih (i + 1) f2
      simp only [jaroGo, hfind]
      refine ⟨by simpa using h1, h2, ?_⟩
      simp only [List.countP_cons, h3]
      simp

lemma commonPrefixLen_le :
    ∀ (s1 s2 : JStr) (cap : Nat), commonPrefixLen s1 s2 cap ≤ cap := by
  intro s1
  induction s1 with
  | nil =>
    intro s2 cap
    cases cap <;> simp [commonPrefixLen]
  | cons a t ih =>
    intro s2 cap
    cases s2 with
    | nil => cases cap <;> simp [commonPrefixLen]
    | cons b u =>
      cases cap with
      | zero => simp [commonPrefixLen]
      | succ n =>
        rw [commonPrefixLen]
        split
        · exact Nat.succ_le_succ (ih u n)
        · exact Nat.zero_le _

/-- Pure arithmetic core of the Jaro–Winkler bounds. -/
lemma jaroFormula_bounds (m t len1 len2 p : ℚ)
    (hm : 1 ≤ m) (h1 : m ≤ len1) (h2 : m ≤ len2) (ht0 : 0 ≤ t) (ht : t ≤ m)
    (hp0 : 0 ≤ p) (hp : p ≤ 4) :
    0 ≤ (m / len1 + m / len2 + (m - t / 2) / m) / 3
        + 1 / 10 * p * (1 - (m / len1 + m / len2 + (m - t / 2) / m) / 3) ∧
    (m / len1 + m / len2 + (m - t / 2) / m) / 3
        + 1 / 10 * p * (1 - (m / len1 + m / len2 + (m - t / 2) / m) / 3) ≤ 1 := by
  have hm0 : (0 : ℚ) < m := by linarith
  have hl1 : (0 : ℚ) < len1 := by linarith
  have hl2 : (0 : ℚ) < len2 := by linarith
  have ha : m / len1 ≤ 1 := (div_le_one hl1).mpr h1
  have hb : m / len2 ≤ 1 := (div_le_one hl2).mpr h2
  have hc : (m - t / 2) / m ≤ 1 := (div_le_one hm0).mpr (by linarith)
  have ha0 : 0 ≤ m / len1 := div_nonneg (by linarith) (by linarith)
  have hb0 : 0 ≤ m / len2 := div_nonneg (by linarith) (by linarith)
  have hc0 : 0 ≤ (m - t / 2) / m := div_nonneg (by linarith) (by linarith)
  set jaro : ℚ := (m / len1 + m / len2 + (m - t / 2) / m) / 3 with hjaro
  have hj0 : 0 ≤ jaro := by
    rw [hjaro]
    positivity
  have hj1 : jaro ≤ 1 := by
    rw [hjaro]
    rw [div_le_one (by norm_num : (0:ℚ) < 3)]
    linarith
  constructor
  · have : 0 ≤ 1 / 10 * p * (1 - jaro) := by
      apply mul_nonneg (mul_nonneg (by norm_num) hp0)
      linarith
    linarith
  · nlinarith [mul_nonneg (sub_nonneg.mpr hj1)
      (show (0:ℚ) ≤ 1 - 1 / 10 * p by linarith)]

lemma jaroFindMatches_spec (s1 s2 : JStr) (w : Nat) :
    ((jaroFindMatches s1 s2 w).1).length = s1.length ∧
    ((jaroFindMatches s1 s2 w).2).length = s2.length ∧
    ((jaroFindMatches s1 s2 w).2).countP id
      = ((jaroFindMatches s1 s2 w).1).countP id := by
  unfold jaroFindMatches
  obtain ⟨h1, h2, h3⟩ := jaroGo_spec s2 w s1 0 (List.replicate s2.length false)
  exact ⟨h1, by simpa using h2, by simpa [countP_replicate_false] using h3⟩

lemma jaroWinklerMain_bounds (s1 s2 : JStr) (mw : Nat) :
    0 ≤ jaroWinklerMain s1 s2 mw ∧ jaroWinklerMain s1 s2 mw ≤ 1 := by
  obtain ⟨hf1, hf2, hf12⟩ := jaroFindMatches_spec s1 s2 mw
  simp only [jaroWinklerMain]
  split_ifs with hm
  · norm_num
  · have hM1 : 1 ≤ (jaroFindMatches s1 s2 mw).1.countP id :=
      Nat.one_le_iff_ne_zero.mpr hm
    have hMl1 : (jaroFindMatches s1 s2 mw).1.countP id ≤ s1.length :=
      hf1 ▸ List.countP_le_length _
    have hMl2 : (jaroFindMatches s1 s2 mw).1.countP id ≤ s2.length := by
      rw [← hf12]
      exact hf2 ▸ List.countP_le_length _
    have hmc1 : (matchedChars s1 (jaroFindMatches s1 s2 mw).1).length
        = (jaroFindMatches s1 s2 mw).1.countP id := matchedChars_length s1 _ hf1
    have hmc2 : (matchedChars s2 (jaroFindMatches s1 s2 mw).2).length
        = (jaroFindMatches s1 s2 mw).1.countP id := by
      rw [matchedChars_length s2 _ hf2, hf12]
    have hT : (((matchedChars s1 (jaroFindMatches s1 s2 mw).1).zip
          (matchedChars s2 (jaroFindMatches s1 s2 mw).2)).filter
            fun p => p.1 != p.2).length ≤ (jaroFindMatches s1 s2 mw).1.countP id := by
      refine le_trans (List.length_filter_le _ _) ?_
      rw [List.length_zip, hmc1, hmc2]
      exact min_le_left _ _
    have hP : commonPrefixLen s1 s2 (min (min s1.length s2.length) 4) ≤ 4 :=
      le_trans (commonPrefixLen_le _ _ _) (by omega)
    have hmk : (mkRat 1 10 : ℚ) = 1 / 10 := by
      rw [Rat.mkRat_eq_div]
      norm_num
    rw [hmk]
    exact jaroFormula_bounds _ _ _ _ _
      (by exact_mod_cast hM1) (by exact_mod_cast hMl1) (by exact_mod_cast hMl2)
      (Nat.cast_nonneg _) (by exact_mod_cast hT)
      (Nat.cast_nonneg _) (by exact_mod_cast hP)

lemma jaroWinklerSimilarity_bounds (s1 s2 : JStr) :
    0 ≤ jaroWinklerSimilarity s1 s2 ∧ jaroWinklerSimilarity s1 s2 ≤ 1 := by
  simp only [jaroWinklerSimilarity]
  split_ifs with h1 h2 h3
  · norm_num
  · norm_num
  · norm_num
  · exact jaroWinklerMain_bounds _ _ _

lemma levenshteinSim_bounds (a b : JStr) :
    0 ≤ 1 - (levenshteinDistance a b : ℚ) / ((max a.length b.length : ℕ) : ℚ) ∧
    1 - (levenshteinDistance a b : ℚ) / ((max a.length b.length : ℕ) : ℚ) ≤ 1 := by
  by_cases h : max a.length b.length = 0
  · have ha : a = [] := List.length_eq_zero.mp (by omega)
    have hb : b = [] := List.length_eq_zero.mp (by omega)
    subst ha; subst hb
    norm_num [levenshteinDistance]
  · have hpos : (0 : ℚ) < ((max a.length b.length : ℕ) : ℚ) := by
      exact_mod_cast Nat.pos_of_ne_zero h
    have hle : (levenshteinDistance a b : ℚ) ≤ ((max a.length b.length : ℕ) : ℚ) := by
      exact_mod_cast levenshteinDistance_le a b
    have hnn : (0 : ℚ) ≤ (levenshteinDistance a b : ℚ) := Nat.cast_nonneg _
    constructor
    · have : (levenshteinDistance a b : ℚ) / ((max a.length b.length : ℕ) : ℚ) ≤ 1 :=
        (div_le_one hpos).mpr hle
      linarith
    · have : 0 ≤ (levenshteinDistance a b : ℚ) / ((max a.length b.length : ℕ) : ℚ) :=
        div_nonneg hnn (le_of_lt hpos)
      linarith

/-! ## Claim C5 -/

/-- Claim C5: for every pair of input strings the similarity score of
`calculateMatchScore` — across all six tiers, including the word-overlap
formula and the combined Levenshtein/Jaro–Winkler fuzzy fallback — lies
in the closed interval `[0, 1]`. -/
theorem score_in_unit_interval (a b : JStr) :
    0 ≤ calculateMatchScore a b ∧ calculateMatchScore a b ≤ 1 := by
  simp only [calculateMatchScore]
  split_ifs with h0 h1 h2 h3 h4 h5 h6 h7 h8
  · norm_num
  · norm_num
  · constructor <;> decide
  · constructor <;> decide
  · constructor <;> decide
  · constructor <;> decide
  · constructor <;> decide
  · -- word-overlap tier
    obtain ⟨htl, hcl, hws⟩ := h7
    set tw := wordsOf (getCanonicalName (normalizeBasic a))
    set cw := wordsOf (getCanonicalName (normalizeBasic b))
    set wm := (tw.filter fun t =>
      cw.any fun c => decide (t <:+: c) || decide (c <:+: t)).length with hwm
    have hnum : wm ≤ max tw.length cw.length :=
      le_trans (List.length_filter_le _ _) (le_max_left _ _)
    have hden : (0 : ℚ) < ((max tw.length cw.length : ℕ) : ℚ) := by
      have : 0 < max tw.length cw.length := lt_of_lt_of_le htl (le_max_left _ _)
      exact_mod_cast this
    have hws1 : (wm : ℚ) / ((max tw.length cw.length : ℕ) : ℚ) ≤ 1 :=
      (div_le_one hden).mpr (by exact_mod_cast hnum)
    have hws0 : 0 ≤ (wm : ℚ) / ((max tw.length cw.length : ℕ) : ℚ) :=
      div_nonneg (Nat.cast_nonneg _) (le_of_lt hden)
    have hmk35 : (mkRat 3 5 : ℚ) = 3 / 5 := by rw [Rat.mkRat_eq_div]; norm_num
    have hmk320 : (mkRat 3 20 : ℚ) = 3 / 20 := by rw [Rat.mkRat_eq_div]; norm_num
    rw [hmk35, hmk320]
    constructor
    · positivity
    · have : (wm : ℚ) / ((max tw.length cw.length : ℕ) : ℚ) * (3 / 20) ≤ 1 * (3 / 20) :=
        mul_le_mul_of_nonneg_right hws1 (by norm_num)
      linarith
  · -- fuzzy tier, above threshold
    obtain ⟨hl0, hl1⟩ :=
      levenshteinSim_bounds (getCanonicalName (normalizeBasic a))
        (getCanonicalName (normalizeBasic b))
    obtain ⟨hj0, hj1⟩ :=
      jaroWinklerSimilarity_bounds (getCanonicalName (normalizeBasic a))
        (getCanonicalName (normalizeBasic b))
    have hmk25 : (mkRat 2 5 : ℚ) = 2 / 5 := by rw [Rat.mkRat_eq_div]; norm_num
    have hmk35 : (mkRat 3 5 : ℚ) = 3 / 5 := by rw [Rat.mkRat_eq_div]; norm_num
    rw [hmk25, hmk35]
    constructor
    · have := mul_nonneg hl0 (show (0:ℚ) ≤ 2/5 by norm_num)
      have := mul_nonneg hj0 (show (0:ℚ) ≤ 3/5 by norm_num)
      linarith
    · have h1 := mul_le_mul_of_nonneg_right hl1 (show (0:ℚ) ≤ 2/5 by norm_num)
      have h2 := mul_le_mul_of_nonneg_right hj1 (show (0:ℚ) ≤ 3/5 by norm_num)
      linarith
  · norm_num

/-! ## Claim C10 -/

/-- Every score is either exactly `0` or strictly above the `0.6`
acceptance threshold: no pair lands in `(0, 0.6]`. -/
lemma calculateMatchScore_gap (a b : JStr) :
    calculateMatchScore a b = 0 ∨ mkRat 3 5 < calculateMatchScore a b := by
  simp only [calculateMatchScore]
  split_ifs with h0 h1 h2 h3 h4 h5 h6 h7 h8
  · exact Or.inl rfl
  · exact Or.inr (by decide)
  · exact Or.inr (by decide)
  · exact Or.inr (by decide)
  · exact Or.inr (by decide)
  · exact Or.inr (by decide)
  · exact Or.inr (by decide)
  · -- word-overlap tier: the value exceeds 0.6 + 0.5·0.15
    obtain ⟨htl, hcl, hws⟩ := h7
    refine Or.inr ?_
    set tw := wordsOf (getCanonicalName (normalizeBasic a))
    set cw := wordsOf (getCanonicalName (normalizeBasic b))
    set ws : ℚ := ((tw.filter fun t =>
      cw.any fun c => decide (t <:+: c) || decide (c <:+: t)).length : ℚ)
        / ((max tw.length cw.length : ℕ) : ℚ) with hwsdef
    have hmk35 : (mkRat 3 5 : ℚ) = 3 / 5 := by rw [Rat.mkRat_eq_div]; norm_num
    have hmk320 : (mkRat 3 20 : ℚ) = 3 / 20 := by rw [Rat.mkRat_eq_div]; norm_num
    have hmk12 : (mkRat 1 2 : ℚ) = 1 / 2 := by rw [Rat.mkRat_eq_div]; norm_num
    rw [hmk12] at hws
    rw [hmk35, hmk320]
    have : (1 : ℚ) / 2 * (3 / 20) < ws * (3 / 20) :=
      mul_lt_mul_of_pos_right hws (by norm_num)
    linarith
  · exact Or.inr h8
  · exact Or.inl rfl

/-- Claim C10: `calculateMatchScore` returns either exactly `0` or a
value strictly greater than `0.6`; consequently `findBestMatch` never
returns a positive score that fails the `> 0.6` acceptance test. -/
theorem score_gap_and_findBestMatch (a b : JStr) (cs : List JStr) :
    (calculateMatchScore a b = 0 ∨ mkRat 3 5 < calculateMatchScore a b) ∧
    ((findBestMatch a cs).score = 0 ∨ mkRat 3 5 < (findBestMatch a cs).score) := by
  refine ⟨calculateMatchScore_gap a b, ?_⟩
  by_cases hg : a = [] ∨ cs = []
  · left
    simp [findBestMatch, hg]
  · rcases bestStep_foldl_spec a cs ((none : Option JStr), (0 : ℚ), ([] : JStr))
      with hr | ⟨c, _, hr⟩
    · left
      simp [findBestMatch, hg, hr]
    · have : (findBestMatch a cs).score = calculateMatchScore a c := by
        simp [findBestMatch, hg, hr]
      rw [this]
      exact calculateMatchScore_gap a c

end FocusSpec
